import Mathlib

/-!
Shallow embedding of the core of the typst front end found in
`src/parse/mod.rs` and `src/eval/mod.rs`: the tree-walking evaluator
(markup and code streams, set/show forward scoping, control flow,
for-loop dispatch, imports with cycle detection), the parser's
parenthesized-collection classification, and the incremental
markup-elements reparser.

Conventions of the embedding:
* Strings are grapheme-aware in the source (`unicode_segmentation` is an
  external collaborator), so a string value `Str` is represented by its
  list of extended grapheme clusters.
* Machine integers are modelled as `Int`; float/length/angle/em/fr/ratio
  values are out of scope (the spec delegates quantity arithmetic to an
  external collaborator) and are omitted from the value universe.
* Rust's `SourceResult` becomes `Except Err`; the mutable `Vm` is threaded
  explicitly, so evaluation functions return `Except Err (α × Vm)`.
* Evaluation is fuel-indexed (`Nat` fuel, checked at every entry) because
  imports re-enter evaluation of other sources; fuel exhaustion is the
  distinguished error `Err.noFuel`, which no source construct produces.
-/

set_option maxHeartbeats 1600000

namespace TypstModel

/-- A string value, represented by its list of extended grapheme clusters
(the source's strings are grapheme-aware; segmentation itself is the
external `unicode_segmentation` collaborator). -/
abbrev Str := List String

/-- Spans are abstracted to numeric identifiers; the evaluator only ever
copies spans from syntax nodes into errors and flow signals. -/
abbrev Span := Nat

/-- Source ids, compared by identity equality as in `Route::contains`. -/
abbrev SourceId := Nat

/-- Evaluation failures: a spanned diagnostic (`bail!`), the hard failure
used by `eval` for cyclic evaluation (a `panic` in the source), or fuel
exhaustion (an artifact of the fuel-indexed embedding only). -/
inductive Err where
  | err (span : Span) (msg : String)
  | hardFail (msg : String)
  | noFuel
deriving Repr, DecidableEq

/-- Result type of evaluation steps (`SourceResult` in the source). -/
abbrev Res (α : Type) := Except Err α

/-- Literal kinds (`ast::LitKind`), restricted to the value kinds the
claims exercise; quantity literals are out of scope. -/
inductive LitKind where
  | noneL
  | autoL
  | bool (b : Bool)
  | int (i : Int)
  | str (s : Str)
deriving Repr, DecidableEq

/-- Binary operators (`ast::BinOp`), restricted to the short-circuiting
boolean operators plus `add` as a representative strict operator. -/
inductive BinOp where
  | and
  | or
  | add
deriving Repr, DecidableEq

/-- The import list of a module import (`ast::Imports`); each named item
carries the span of its identifier. -/
inductive Imports where
  | wildcard
  | items (l : List (Span × String))
deriving Repr, DecidableEq

mutual

/-- Expressions (`ast::Expr`), restricted to the constructs the claims
are about. Every constructor carries its span first. -/
inductive Expr where
  | lit (sp : Span) (k : LitKind)
  | ident (sp : Span) (name : String)
  | code (sp : Span) (exprs : List Expr)
  | content (sp : Span) (body : List MarkupNode)
  | arrayE (sp : Span) (items : List ArrayItemNode)
  | binary (sp : Span) (op : BinOp) (lhs rhs : Expr)
  | letB (sp : Span) (name : String) (init : Option Expr)
  | set (sp : Span) (target : Expr) (args : List ArgNode)
  | showR (sp : Span) (pat : Expr) (body : Expr)
  | wrap (sp : Span) (binding : String) (body : Expr)
  | forLoop (sp : Span) (patSp : Span) (key : Option String) (val : String)
      (iter : Expr) (body : Expr)
  | importE (sp : Span) (path : Expr) (imports : Imports)
  | includeE (sp : Span) (path : Expr)
  | breakE (sp : Span)
  | continueE (sp : Span)
  | returnE (sp : Span) (body : Option Expr)

/-- Markup nodes (`ast::MarkupNode`), restricted to whitespace, text and
embedded expressions; the remaining variants evaluate to fixed `Content`
constructors and play no role in the claims. -/
inductive MarkupNode where
  | space (newlines : Nat)
  | text (s : Str)
  | expr (e : Expr)

/-- Call/`set` arguments (`ast::Arg`): positional or named. -/
inductive ArgNode where
  | pos (e : Expr)
  | named (name : Str) (e : Expr)

/-- Array literal items (`ast::ArrayItem`): positional or spread. -/
inductive ArrayItemNode where
  | pos (e : Expr)
  | spread (e : Expr)

end

/-- The span stored on an expression node. -/
def Expr.span : Expr → Span
  | .lit sp _ => sp
  | .ident sp _ => sp
  | .code sp _ => sp
  | .content sp _ => sp
  | .arrayE sp _ => sp
  | .binary sp _ _ _ => sp
  | .letB sp _ _ => sp
  | .set sp _ _ => sp
  | .showR sp _ _ => sp
  | .wrap sp _ _ => sp
  | .forLoop sp _ _ _ _ _ => sp
  | .importE sp _ _ => sp
  | .includeE sp _ => sp
  | .breakE sp => sp
  | .continueE sp => sp
  | .returnE sp _ => sp

/-- A function value. Closures and the built-in function library are
external collaborators; a function is identified by its name. -/
structure FuncV where
  name : String
deriving Repr, DecidableEq

mutual

/-- Values (`Value`): the tagged sum, restricted to the kinds the claims
exercise (float and the quantity kinds are out of scope). -/
inductive Value where
  | none
  | auto
  | bool (b : Bool)
  | int (i : Int)
  | str (s : Str)
  | content (c : Content)
  | array (xs : List Value)
  | dict (d : List (Str × Value))
  | args (items : List Arg)
  | func (f : FuncV)

/-- An evaluated argument (`Arg`): optional name plus value. -/
inductive Arg where
  | mk (name : Option Str) (value : Value)

/-- Content (`Content`). Modelled from the spec: a tagged sum of
renderable nodes; styled content wraps a content value with a style map
or a single style entry, never mutating children. -/
inductive Content where
  | empty
  | space
  | parbreak
  | text (s : Str)
  | seq (cs : List Content)
  | styledMap (c : Content) (m : List StyleEntry)
  | styledEntry (c : Content) (e : StyleEntry)

/-- A style entry (`StyleEntry`): a `set`-rule entry produced by a
function's set variant, or a show-rule recipe `(pattern, body)`.
Modelled from the spec: `StyleMap / Recipe` of the data model. -/
inductive StyleEntry where
  | setE (fname : String) (args : List Arg)
  | recipe (pat : String) (body : Expr)

end

/-- A style map is an ordered list of style entries. -/
abbrev StyleMap := List StyleEntry

/-- The name of an evaluated argument. -/
def Arg.name : Arg → Option Str
  | .mk n _ => n

/-- The value of an evaluated argument. -/
def Arg.value : Arg → Value
  | .mk _ v => v

/-- The user-visible type name of a value (`Value::type_name`). Modelled
from the spec's value-kind list; `value.rs` is an external module. -/
def Value.typeName : Value → String
  | .none => "none"
  | .auto => "auto"
  | .bool _ => "boolean"
  | .int _ => "integer"
  | .str _ => "string"
  | .content _ => "content"
  | .array _ => "array"
  | .dict _ => "dictionary"
  | .args _ => "arguments"
  | .func _ => "function"

/-- Flatten one level of nested sequences, as `Content::sequence` does.
Modelled from the spec: `Content::sequence` flattens nested sequences. -/
def seqFlatten : List Content → List Content
  | [] => []
  | .seq l :: rest => l ++ seqFlatten rest
  | c :: rest => c :: seqFlatten rest

/-- `Content::sequence`: build a sequence from a list of contents. -/
def Content.sequence (cs : List Content) : Content :=
  .seq (seqFlatten cs)

/-- `Content::styled_with_map`: wrap content with a style map. -/
def Content.styledWithMap (c : Content) (m : StyleMap) : Content :=
  .styledMap c m

/-- `Content::styled_with_entry`: wrap content with a single entry. -/
def Content.styledWithEntry (c : Content) (e : StyleEntry) : Content :=
  .styledEntry c e

/-- `Value::display`: the display form of a value used when markup embeds
an expression. Modelled from the spec (`value.rs` is external); only the
`none`/`str`/`content` cases matter to the claims. -/
def Value.display : Value → Content
  | .none => .empty
  | .auto => .text ["auto"]
  | .bool b => .text [if b then "true" else "false"]
  | .int i => .text [toString i]
  | .str s => .text s
  | .content c => c
  | .array _ => .text ["array"]
  | .dict _ => .text ["dictionary"]
  | .args _ => .text ["arguments"]
  | .func f => .text [f.name]

/-- `ops::join`: joining of successive code values. Modelled from the
spec's table: `None` is the identity, strings concatenate, contents
concatenate, arrays follow their kind, anything else is a type error. -/
def join : Value → Value → Except String Value
  | .none, v => .ok v
  | v, .none => .ok v
  | .str a, .str b => .ok (.str (a ++ b))
  | .content a, .content b => .ok (.content (Content.sequence [a, b]))
  | .array a, .array b => .ok (.array (a ++ b))
  | a, b => .error ("cannot join " ++ a.typeName ++ " with " ++ b.typeName)

/-- The value of a literal (`ast::Lit::eval`). -/
def litValue : LitKind → Value
  | .noneL => .none
  | .autoL => .auto
  | .bool b => .bool b
  | .int i => .int i
  | .str s => .str s

/-- A control-flow signal (`Flow`). -/
inductive Flow where
  | breakF (sp : Span)
  | continueF (sp : Span)
  | returnF (sp : Span) (v : Option Value)

/-- The span a flow signal carries. -/
def Flow.span : Flow → Span
  | .breakF sp => sp
  | .continueF sp => sp
  | .returnF sp _ => sp

/-- `Flow::forbidden`: the diagnostic for a flow signal that reached a
site that cannot consume it. Modelled from the spec: "<flow> is not
allowed here" (`vm.rs` is external). -/
def Flow.forbidden : Flow → String
  | .breakF _ => "break is not allowed here"
  | .continueF _ => "continue is not allowed here"
  | .returnF _ _ => "return is not allowed here"

/-- A scope: an insertion-ordered name-to-value map, newest binding
first; lookup takes the first match, so redefinition replaces silently. -/
abbrev Scope := List (String × Value)

/-- First-match lookup in a scope. -/
def scopeGet : Scope → String → Option Value
  | [], _ => Option.none
  | (k, v) :: rest, n => if k = n then some v else scopeGet rest n

/-- The scope stack (`Scopes`). Modelled from the spec §4.4: `enter`
pushes an empty frame, `exit` pops, `define` writes to the top frame,
`get` walks innermost to outermost and then the standard library. -/
structure Scopes where
  top : Scope
  rest : List Scope
  base : Scope

/-- Walk a list of frames, innermost first. -/
def framesGet : List Scope → String → Option Value
  | [], _ => Option.none
  | f :: fs, n =>
    match scopeGet f n with
    | some v => some v
    | Option.none => framesGet fs n

/-- `Scopes::get`: innermost frame to outermost, then the base. -/
def Scopes.get (ss : Scopes) (n : String) : Option Value :=
  match scopeGet ss.top n with
  | some v => some v
  | Option.none =>
    match framesGet ss.rest n with
    | some v => some v
    | Option.none => scopeGet ss.base n

/-- `Scopes::enter`: push an empty top frame. -/
def Scopes.enter (ss : Scopes) : Scopes :=
  { ss with top := [], rest := ss.top :: ss.rest }

/-- `Scopes::exit`: pop back to the previous frame. -/
def Scopes.exit (ss : Scopes) : Scopes :=
  match ss.rest with
  | t :: r => { ss with top := t, rest := r }
  | [] => { ss with top := [] }

/-- `Scope::define` on the top frame. -/
def Scopes.defineTop (ss : Scopes) (n : String) (v : Value) : Scopes :=
  { ss with top := (n, v) :: ss.top }

/-- Fresh scopes parented on the standard library. -/
def Scopes.new (std : Scope) : Scopes :=
  { top := [], rest := [], base := std }

/-- The `World` interface consumed by evaluation: sources by id, path
resolution (`locate` is relative to the current source), and the
standard-library scope. -/
structure World where
  sourceAst : SourceId → Option (List MarkupNode)
  locate : Option SourceId → Str → Option Str
  resolve : Str → Option SourceId
  std : Scope

/-- The evaluator state (`Vm`): world handle, route of ancestor source
ids, current location, scope stack, pending control-flow signal. -/
structure Vm where
  world : World
  route : List SourceId
  location : Option SourceId
  scopes : Scopes
  flow : Option Flow

/-- Define a name in the top scope frame. -/
def Vm.define (vm : Vm) (n : String) (v : Value) : Vm :=
  { vm with scopes := vm.scopes.defineTop n v }

/-- An evaluated module (`Module`): top-level scope plus content. -/
structure Module where
  scope : Scope
  content : Content

/-- The fresh `Vm` built by `eval` for a source: route extended with the
id, scopes parented on the standard library, no pending flow. -/
def Vm.initial (w : World) (route : List SourceId) (id : SourceId) : Vm :=
  { world := w, route := route, location := some id,
    scopes := Scopes.new w.std, flow := Option.none }

/-- `Route::contains`: identity membership of a source id in the route. -/
def routeContains (route : List SourceId) (id : SourceId) : Bool :=
  route.contains id

/-- The short-circuit test of `ast::Binary::apply`: `And` with a `false`
left operand or `Or` with a `true` left operand. -/
def shortCircuits (op : BinOp) (lhs : Value) : Bool :=
  match op, lhs with
  | .and, .bool false => true
  | .or, .bool true => true
  | _, _ => false

/-- The strict part of the binary operators (`ops::and/or/add`). Modelled
from the spec (`ops.rs` is external): boolean operators require booleans,
`add` adds integers and concatenates strings and arrays. -/
def binOpApply : BinOp → Value → Value → Except String Value
  | .and, .bool a, .bool b => .ok (.bool (a && b))
  | .or, .bool a, .bool b => .ok (.bool (a || b))
  | .add, .int a, .int b => .ok (.int (a + b))
  | .add, .str a, .str b => .ok (.str (a ++ b))
  | .add, .array a, .array b => .ok (.array (a ++ b))
  | _, a, b =>
    .error ("cannot apply this operation to " ++ a.typeName ++ " and " ++ b.typeName)

/-- Set a `Return` flow if none is pending (`ast::ReturnStmt::eval`). -/
def setReturnFlow (vm : Vm) (sp : Span) (v : Option Value) : Vm :=
  match vm.flow with
  | Option.none => { vm with flow := some (.returnF sp v) }
  | some _ => vm

/-- The per-iteration bindings of a for loop (`ast::ForLoop::eval`): the
dispatch on pattern shape and iterand kind. Each list element is the list
of definitions performed at the start of one iteration, in order. -/
def forIterations (patSp iterSp : Span) (key : Option String) (val : String) :
    Value → Except Err (List (List (String × Value)))
  | .str s =>
    match key with
    | Option.none => .ok (s.map fun g => [(val, Value.str [g])])
    | some _ => .error (.err patSp "mismatched pattern")
  | .array xs =>
    match key with
    | Option.none => .ok (xs.map fun x => [(val, x)])
    | some k => .ok (xs.enum.map fun p => [(k, Value.int p.1), (val, p.2)])
  | .dict d =>
    match key with
    | Option.none => .ok (d.map fun p => [(val, p.2)])
    | some k => .ok (d.map fun p => [(k, Value.str p.1), (val, p.2)])
  | .args items =>
    match key with
    | Option.none =>
      .ok ((items.filter fun a => a.name.isNone).map fun a => [(val, a.value)])
    | some k =>
      .ok (items.map fun a =>
        [(k, match a.name with | Option.none => Value.none | some n => Value.str n),
         (val, a.value)])
  | v => .error (.err iterSp ("cannot loop over " ++ v.typeName))

/-- Import a listed subset of a module's scope; unresolved names are
errors (`ast::ModuleImport::eval`). -/
def importItems (msc : Scope) : Vm → List (Span × String) → Res (Value × Vm)
  | vm, [] => .ok (.none, vm)
  | vm, (sp, n) :: rest =>
    match scopeGet msc n with
    | some v => importItems msc (vm.define n v) rest
    | Option.none => .error (.err sp "unresolved import")

mutual

/-- Evaluate an expression (`ast::Expr::eval` together with the per-kind
`Eval` impls of `src/eval/mod.rs`). -/
def evalExpr : Nat → Vm → Expr → Res (Value × Vm)
  | 0, _, _ => .error .noFuel
  | f + 1, vm, e =>
    match e with
    | .lit _ k => .ok (litValue k, vm)
    | .ident sp n =>
      match vm.scopes.get n with
      | some v => .ok (v, vm)
      | Option.none => .error (.err sp "unknown variable")
    | .code _ exprs =>
      match evalCodeList f { vm with scopes := vm.scopes.enter } exprs with
      | .error er => .error er
      | .ok (v, vm) => .ok (v, { vm with scopes := vm.scopes.exit })
    | .content _ body =>
      match evalMarkupList f { vm with scopes := vm.scopes.enter } body with
      | .error er => .error er
      | .ok (c, vm) => .ok (.content c, { vm with scopes := vm.scopes.exit })
    | .arrayE _ items =>
      match evalArrayItems f vm items [] with
      | .error er => .error er
      | .ok (xs, vm) => .ok (.array xs, vm)
    | .binary sp op l r => applyBin f vm sp op l r
    | .letB _ n init =>
      match init with
      | some e =>
        match evalExpr f vm e with
        | .error er => .error er
        | .ok (v, vm) => .ok (.none, vm.define n v)
      | Option.none => .ok (.none, vm.define n .none)
    | .set sp _ _ =>
      .error (.err sp "set is only allowed directly in code and content blocks")
    | .showR sp _ _ =>
      .error (.err sp "show is only allowed directly in code and content blocks")
    | .wrap sp _ _ =>
      .error (.err sp "wrap is only allowed directly in code and content blocks")
    | .forLoop _ patSp key val iterE bodyE =>
      let flow := vm.flow
      let vm := { vm with flow := Option.none, scopes := vm.scopes.enter }
      match evalExpr f vm iterE with
      | .error er => .error er
      | .ok (iterV, vm) =>
        match forIterations patSp iterE.span key val iterV with
        | .error er => .error er
        | .ok binds =>
          match runForIters f vm bodyE .none binds with
          | .error er => .error er
          | .ok (out, vm) =>
            let vm := if flow.isSome then { vm with flow := flow } else vm
            .ok (out, { vm with scopes := vm.scopes.exit })
    | .importE _ pathE imps =>
      match evalExpr f vm pathE with
      | .error er => .error er
      | .ok (pv, vm) =>
        match pv with
        | .str path =>
          match importMod f vm path pathE.span with
          | .error er => .error er
          | .ok (m, vm) =>
            match imps with
            | .wildcard =>
              .ok (.none, m.scope.foldr (fun p vm => vm.define p.1 p.2) vm)
            | .items l => importItems m.scope vm l
        | v => .error (.err pathE.span ("expected string, found " ++ v.typeName))
    | .includeE _ pathE =>
      match evalExpr f vm pathE with
      | .error er => .error er
      | .ok (pv, vm) =>
        match pv with
        | .str path =>
          match importMod f vm path pathE.span with
          | .error er => .error er
          | .ok (m, vm) => .ok (.content m.content, vm)
        | v => .error (.err pathE.span ("expected string, found " ++ v.typeName))
    | .breakE sp =>
      match vm.flow with
      | Option.none => .ok (.none, { vm with flow := some (.breakF sp) })
      | some _ => .ok (.none, vm)
    | .continueE sp =>
      match vm.flow with
      | Option.none => .ok (.none, { vm with flow := some (.continueF sp) })
      | some _ => .ok (.none, vm)
    | .returnE sp body =>
      match body with
      | Option.none => .ok (.none, setReturnFlow vm sp Option.none)
      | some e =>
        match evalExpr f vm e with
        | .error er => .error er
        | .ok (v, vm) => .ok (.none, setReturnFlow vm sp (some v))

/-- `ast::Binary::apply`: evaluate the left operand, short-circuit `and`
on `false` and `or` on `true` returning the left value, otherwise
evaluate the right operand and apply the operator. -/
def applyBin : Nat → Vm → Span → BinOp → Expr → Expr → Res (Value × Vm)
  | 0, _, _, _, _, _ => .error .noFuel
  | f + 1, vm, sp, op, l, r =>
    match evalExpr f vm l with
    | .error er => .error er
    | .ok (lhs, vm) =>
      if shortCircuits op lhs then .ok (lhs, vm)
      else
        match evalExpr f vm r with
        | .error er => .error er
        | .ok (rhs, vm) =>
          match binOpApply op lhs rhs with
          | .ok v => .ok (v, vm)
          | .error m => .error (.err sp m)

/-- Evaluate the items of an array literal (`ast::Array::eval`). -/
def evalArrayItems : Nat → Vm → List ArrayItemNode → List Value → Res (List Value × Vm)
  | 0, _, _, _ => .error .noFuel
  | _ + 1, vm, [], acc => .ok (acc, vm)
  | f + 1, vm, .pos e :: rest, acc =>
    match evalExpr f vm e with
    | .error er => .error er
    | .ok (v, vm) => evalArrayItems f vm rest (acc ++ [v])
  | f + 1, vm, .spread e :: rest, acc =>
    match evalExpr f vm e with
    | .error er => .error er
    | .ok (v, vm) =>
      match v with
      | .none => evalArrayItems f vm rest acc
      | .array xs => evalArrayItems f vm rest (acc ++ xs)
      | v => .error (.err e.span ("cannot spread " ++ v.typeName ++ " into array"))

/-- Evaluate an argument list (`ast::Args::eval`). -/
def evalArgs : Nat → Vm → List ArgNode → Res (List Arg × Vm)
  | 0, _, _ => .error .noFuel
  | _ + 1, vm, [] => .ok ([], vm)
  | f + 1, vm, .pos e :: rest =>
    match evalExpr f vm e with
    | .error er => .error er
    | .ok (v, vm) =>
      match evalArgs f vm rest with
      | .error er => .error er
      | .ok (items, vm) => .ok (.mk Option.none v :: items, vm)
  | f + 1, vm, .named n e :: rest =>
    match evalExpr f vm e with
    | .error er => .error er
    | .ok (v, vm) =>
      match evalArgs f vm rest with
      | .error er => .error er
      | .ok (items, vm) => .ok (.mk (some n) v :: items, vm)

/-- `ast::SetRule::eval`: evaluate the target, cast it to a function,
evaluate the arguments, and produce the function's set-rule style map. -/
def evalSetRule : Nat → Vm → Expr → List ArgNode → Res (StyleMap × Vm)
  | 0, _, _, _ => .error .noFuel
  | f + 1, vm, tgt, argNodes =>
    match evalExpr f vm tgt with
    | .error er => .error er
    | .ok (tv, vm) =>
      match tv with
      | .func fn =>
        match evalArgs f vm argNodes with
        | .error er => .error er
        | .ok (avs, vm) => .ok ([.setE fn.name avs], vm)
      | v => .error (.err tgt.span ("expected function, found " ++ v.typeName))

/-- `ast::ShowRule::eval`: evaluate the pattern, cast it, and build the
recipe from the body. -/
def evalShowRule : Nat → Vm → Expr → Expr → Res ((String × Expr) × Vm)
  | 0, _, _, _ => .error .noFuel
  | f + 1, vm, pat, body =>
    match evalExpr f vm pat with
    | .error er => .error er
    | .ok (pv, vm) =>
      match pv with
      | .func fn => .ok ((fn.name, body), vm)
      | v => .error (.err pat.span ("expected pattern, found " ++ v.typeName))

/-- The iteration runner of `ast::ForLoop::eval` (the body of the `iter!`
macro): define the bindings, evaluate the body, join the output, and act
on a pending flow (`Break` clears and stops, `Continue` clears and goes
on, `Return` stops). -/
def runForIters : Nat → Vm → Expr → Value → List (List (String × Value)) → Res (Value × Vm)
  | 0, _, _, _, _ => .error .noFuel
  | _ + 1, vm, _, out, [] => .ok (out, vm)
  | f + 1, vm, bodyE, out, binds :: rest =>
    let vm := binds.foldl (fun vm p => vm.define p.1 p.2) vm
    match evalExpr f vm bodyE with
    | .error er => .error er
    | .ok (v, vm) =>
      match join out v with
      | .error m => .error (.err bodyE.span m)
      | .ok out =>
        match vm.flow with
        | some (.breakF _) => .ok (out, { vm with flow := Option.none })
        | some (.continueF _) => runForIters f { vm with flow := Option.none } bodyE out rest
        | some (.returnF _ _) => .ok (out, vm)
        | Option.none => runForIters f vm bodyE out rest

/-- Evaluate a single markup node (`ast::MarkupNode::eval`): whitespace
becomes a space or paragraph break, text becomes text, an embedded
expression evaluates to its display form. -/
def evalMarkupNode : Nat → Vm → MarkupNode → Res (Content × Vm)
  | 0, _, _ => .error .noFuel
  | _ + 1, vm, .space n => .ok (if n < 2 then .space else .parbreak, vm)
  | _ + 1, vm, .text s => .ok (.text s, vm)
  | f + 1, vm, .expr e =>
    match evalExpr f vm e with
    | .error er => .error er
    | .ok (v, vm) => .ok (v.display, vm)

/-- The loop of `eval_markup`: accumulate the content of each node; a
`Set`/`Show` statement evaluates its styles and wraps the evaluation of
all remaining siblings; `Wrap` evaluates the remaining siblings first and
binds them; a pending flow stops the iteration. -/
def evalMarkupLoop : Nat → Vm → List MarkupNode → Res (List Content × Vm)
  | 0, _, _ => .error .noFuel
  | _ + 1, vm, [] => .ok ([], vm)
  | f + 1, vm, node :: rest =>
    match node with
    | .expr (.set _ tgt args) =>
      match evalSetRule f vm tgt args with
      | .error er => .error er
      | .ok (styles, vm) =>
        if vm.flow.isSome then .ok ([], vm)
        else
          match evalMarkupList f vm rest with
          | .error er => .error er
          | .ok (tail, vm) => .ok ([tail.styledWithMap styles], vm)
    | .expr (.showR _ pat body) =>
      match evalShowRule f vm pat body with
      | .error er => .error er
      | .ok (recipe, vm) =>
        if vm.flow.isSome then .ok ([], vm)
        else
          match evalMarkupList f vm rest with
          | .error er => .error er
          | .ok (tail, vm) =>
            .ok ([tail.styledWithEntry (.recipe recipe.1 recipe.2)], vm)
    | .expr (.wrap _ name body) =>
      match evalMarkupList f vm rest with
      | .error er => .error er
      | .ok (tail, vm) =>
        let vm := vm.define name (.content tail)
        match evalExpr f vm body with
        | .error er => .error er
        | .ok (v, vm) => .ok ([v.display], vm)
    | _ =>
      match evalMarkupNode f vm node with
      | .error er => .error er
      | .ok (c, vm) =>
        if vm.flow.isSome then .ok ([c], vm)
        else
          match evalMarkupLoop f vm rest with
          | .error er => .error er
          | .ok (cs, vm) => .ok (c :: cs, vm)

/-- `eval_markup`: take the pending flow, run the loop with no flow
pending, re-set the taken flow on exit, and build the content sequence. -/
def evalMarkupList : Nat → Vm → List MarkupNode → Res (Content × Vm)
  | 0, _, _ => .error .noFuel
  | f + 1, vm, nodes =>
    let flow := vm.flow
    match evalMarkupLoop f { vm with flow := Option.none } nodes with
    | .error er => .error er
    | .ok (seq, vm) =>
      .ok (Content.sequence seq, if flow.isSome then { vm with flow := flow } else vm)

/-- The loop of `eval_code`: join the value of each expression into the
output; `Set`/`Show` wrap the evaluation of the remaining expressions;
`Wrap` evaluates the remaining expressions first; a pending flow stops
the iteration. -/
def evalCodeLoop : Nat → Vm → Value → List Expr → Res (Value × Vm)
  | 0, _, _, _ => .error .noFuel
  | _ + 1, vm, out, [] => .ok (out, vm)
  | f + 1, vm, out, e :: rest =>
    match e with
    | .set sp tgt args =>
      match evalSetRule f vm tgt args with
      | .error er => .error er
      | .ok (styles, vm) =>
        if vm.flow.isSome then .ok (out, vm)
        else
          match evalCodeList f vm rest with
          | .error er => .error er
          | .ok (tailV, vm) =>
            match join out (.content (tailV.display.styledWithMap styles)) with
            | .error m => .error (.err sp m)
            | .ok out => .ok (out, vm)
    | .showR sp pat body =>
      match evalShowRule f vm pat body with
      | .error er => .error er
      | .ok (recipe, vm) =>
        if vm.flow.isSome then .ok (out, vm)
        else
          match evalCodeList f vm rest with
          | .error er => .error er
          | .ok (tailV, vm) =>
            match join out
                (.content (tailV.display.styledWithEntry (.recipe recipe.1 recipe.2))) with
            | .error m => .error (.err sp m)
            | .ok out => .ok (out, vm)
    | .wrap sp name body =>
      match evalCodeList f vm rest with
      | .error er => .error er
      | .ok (tailV, vm) =>
        let vm := vm.define name tailV
        match evalExpr f vm body with
        | .error er => .error er
        | .ok (v, vm) =>
          match join out v with
          | .error m => .error (.err sp m)
          | .ok out => .ok (out, vm)
    | _ =>
      match evalExpr f vm e with
      | .error er => .error er
      | .ok (v, vm) =>
        match join out v with
        | .error m => .error (.err e.span m)
        | .ok out =>
          if vm.flow.isSome then .ok (out, vm)
          else evalCodeLoop f vm out rest

/-- `eval_code`: take the pending flow, run the loop starting from
`Value::None`, and re-set the taken flow on exit. -/
def evalCodeList : Nat → Vm → List Expr → Res (Value × Vm)
  | 0, _, _ => .error .noFuel
  | f + 1, vm, exprs =>
    let flow := vm.flow
    match evalCodeLoop f { vm with flow := Option.none } .none exprs with
    | .error er => .error er
    | .ok (out, vm) =>
      .ok (out, if flow.isSome then { vm with flow := flow } else vm)

/-- `import`: locate and resolve the path, reject a cyclic import before
re-entering evaluation, then evaluate the module. -/
def importMod : Nat → Vm → Str → Span → Res (Module × Vm)
  | 0, _, _, _ => .error .noFuel
  | f + 1, vm, path, span =>
    match vm.world.locate vm.location path with
    | Option.none => .error (.err span "file not found")
    | some full =>
      match vm.world.resolve full with
      | Option.none => .error (.err span "file not found")
      | some id =>
        if routeContains vm.route id then .error (.err span "cyclic import")
        else
          match evalSource f vm.world vm.route id with
          | .error er => .error er
          | .ok m => .ok (m, vm)

/-- `eval`: the entry point. Cyclic evaluation is a hard failure; the
route is extended, a fresh `Vm` is built, the root markup is evaluated, a
pending flow is the "not allowed here" error, and otherwise the module is
assembled from the top scope and the content. -/
def evalSource : Nat → World → List SourceId → SourceId → Res Module
  | 0, _, _, _ => .error .noFuel
  | f + 1, w, route, id =>
    if routeContains route id then
      .error (.hardFail "tried to cyclicly evaluate source")
    else
      match w.sourceAst id with
      | Option.none => .error (.hardFail "source not found")
      | some ast =>
        match evalMarkupList f (Vm.initial w (id :: route) id) ast with
        | .error er => .error er
        | .ok (c, vm) =>
          match vm.flow with
          | some fl => .error (.err fl.span fl.forbidden)
          | Option.none => .ok ⟨vm.scopes.top, c⟩

end

/-! ## Parenthesized-collection classification (`parenthesized`, `collection`) -/

/-- The type of a collection (`CollectionKind`). -/
inductive CollectionKind where
  | group
  | positional
  | named
deriving Repr, DecidableEq

/-- The outcome of one `item(p, keyed)` call as seen by `collection`:
a spread item, a named (or keyed) pair, a positional expression, or a
parse error. -/
inductive ItemOutcome where
  | spread
  | named
  | pos
  | errorI
deriving Repr, DecidableEq

/-- One iteration of the `collection` loop: the item outcome plus whether
a comma was consumed after the item. The token-level parser that produces
this stream is external (`parser.rs`); this is its observable effect on
`collection`. -/
structure CollItem where
  outcome : ItemOutcome
  comma : Bool
deriving Repr, DecidableEq

/-- The loop state of `collection`: the collection kind identified so
far, the item count, and whether the result can still be a group. -/
structure CollState where
  kind : Option CollectionKind
  items : Nat
  canGroup : Bool
deriving Repr, DecidableEq

/-- One iteration of the `collection` loop body. An erroring item sets
the kind to `Group`; otherwise a spread forbids grouping, a leading named
pair selects `Named`, any other leading item selects `Positional`, and a
consumed comma forbids grouping. -/
def collectionStep (st : CollState) (it : CollItem) : CollState :=
  match it.outcome with
  | .errorI => { st with kind := some .group }
  | o =>
    let st :=
      match o, st.kind with
      | .spread, _ => { st with canGroup := false }
      | .named, Option.none => { st with kind := some .named, canGroup := false }
      | _, Option.none => { st with kind := some .positional }
      | _, _ => st
    let st := { st with items := st.items + 1 }
    if it.comma then { st with canGroup := false } else st

/-- `collection`: fold the loop and finish — a single groupable item is a
`Group`, otherwise the identified kind, defaulting to `Positional`. -/
def collection (its : List CollItem) : CollectionKind × Nat :=
  let st := its.foldl collectionStep ⟨Option.none, 0, true⟩
  (if st.canGroup && st.items == 1 then .group else st.kind.getD .positional, st.items)

/-- The node kind `parenthesized` ends up building. -/
inductive ParenKind where
  | array
  | dict
  | parenthesized
  | closure
deriving Repr, DecidableEq

/-- `parenthesized`: a leading colon makes a dictionary; an arrow after
the closing paren (outside atomic position) makes a closure parameter
list; otherwise the collection kind selects parenthesized / array /
dict. -/
def parenthesized (colon atomic arrowAfter : Bool) (its : List CollItem) : ParenKind :=
  if colon then .dict
  else if !atomic && arrowAfter then .closure
  else
    match (collection its).1 with
    | .group => .parenthesized
    | .positional => .array
    | .named => .dict

/-! ## Incremental markup-elements reparse (`reparse_markup_elements`)

The token-level scanner (`tokens.rs`), the `Parser` machinery
(`parser.rs`) and the incremental driver (`incremental.rs`) are
external, but `markup_node` is in `src/parse/mod.rs` and is
context-sensitive: it threads a mutable `at_start` flag — a `Space` node
sets it when it carries a newline and preserves it otherwise
(`*at_start |= *newlines > 0`), comments preserve it, every other node
clears it — and heading/list dispatch reads it.
`reparse_markup_elements` threads exactly that flag through every
`markup_node` call. The markup-node parser is therefore modelled as a
deterministic stateful chunker: from the current `at_start` flag and the
remaining text it emits the next node (consuming the node's byte length)
and the updated flag. Texts are byte lists; a node carries an abstract
kind and its byte length. -/

/-- Abstract text: a list of bytes. -/
abbrev PText := List Nat

/-- A parsed node: abstract kind plus byte length; two nodes are equal
when both match, which is the equality `reparse_markup_elements` uses for
convergence. -/
structure PNode where
  kind : Nat
  len : Nat
deriving Repr, DecidableEq

/-- The markup-node parser as `reparse_markup_elements` drives it: one
`markup_node` call reads the next node from the `at_start` flag and the
remaining text, and updates the flag. The token-level behavior is
modelled from the spec (`tokens.rs`/`parser.rs` are external); the
`at_start` discipline is that of `markup_node`
(`src/parse/mod.rs:220-295`). A node consumes at least one byte. -/
structure MarkupParser where
  chunk : Bool → PText → PNode × Bool
  chunk_pos : ∀ st t, t ≠ [] → 0 < (chunk st t).1.len

/-- The full parse of a text from a given `at_start` state: chunk nodes
until the text is exhausted (the loop of `markup`, which starts with
`at_start = true`). -/
def parseSeqS (P : MarkupParser) : Bool → PText → List PNode
  | _, [] => []
  | st, x :: xs =>
    (P.chunk st (x :: xs)).1
      :: parseSeqS P (P.chunk st (x :: xs)).2
          ((x :: xs).drop (P.chunk st (x :: xs)).1.len)
termination_by _ t => t.length
decreasing_by
  simp only [List.length_drop]
  have h1 := P.chunk_pos st (x :: xs) (by simp)
  simp only [List.length_cons]
  omega

/-- The result of the inner cursor-advancing loop of
`reparse_markup_elements`: either convergence was detected, or the
updated cursor over the old children. -/
inductive Adv where
  | converged (replaced : Nat)
  | cursor (node : Option PNode) (rest : List PNode) (offset : Int) (replaced : Nat)
deriving Repr, DecidableEq

/-- The inner `while offset <= recent_start` loop of
`reparse_markup_elements`: if the current old node sits at the fresh
node's position and is equal to it, the trees have converged; otherwise
step past it and fetch the next old node. -/
def advance (recent : PNode) (recentStart : Int) :
    Option PNode → List PNode → Int → Nat → Adv
  | node, rest, offset, replaced =>
    if offset ≤ recentStart then
      match node with
      | some nd =>
        if offset = recentStart ∧ nd = recent then .converged (replaced - 1)
        else
          match rest with
          | [] => .cursor Option.none [] (offset + nd.len) replaced
          | r :: rs =>
            advance recent recentStart (some r) rs (offset + nd.len) (replaced + 1)
      | Option.none =>
        match rest with
        | [] => .cursor Option.none [] offset replaced
        | r :: rs => advance recent recentStart (some r) rs offset (replaced + 1)
    else .cursor node rest offset replaced

/-- The outer loop of `reparse_markup_elements`: parse fresh nodes from
the new text, threading the `at_start` flag through every `markup_node`
call (`src/parse/mod.rs:89,107`); the `min_indent` rejection before each
node (lines 101-105, "the upcoming token is a space with a newline whose
following column is below `min_indent`") is the abstract `indentReject`
predicate on the remaining text — constantly false when `min_indent` is
0, since a column is never negative. Nodes ending at or before the edit
end are emitted without comparison; past the edit, the old-node cursor
is advanced and checked for convergence at matching offsets. Returns the
freshly emitted nodes, the count of replaced old nodes, and whether the
loop stopped by convergence; `none` is a rejection. -/
def reparseLoopS (P : MarkupParser) (indentReject : PText → Bool) :
    PText → Bool → Nat → Nat → Option PNode → List PNode → Int → Nat → List PNode →
    Option (List PNode × Nat × Bool)
  | [], _, _, _, _, _, _, replaced, acc => some (acc, replaced, false)
  | x :: xs, atStart, pos, endPos, node, refRest, offset, replaced, acc =>
    if indentReject (x :: xs) then Option.none
    else
      let n := (P.chunk atStart (x :: xs)).1
      let st2 := (P.chunk atStart (x :: xs)).2
      let pos2 := pos + n.len
      let t2 := (x :: xs).drop n.len
      if pos2 ≤ endPos then
        reparseLoopS P indentReject t2 st2 pos2 endPos node refRest offset replaced
          (acc ++ [n])
      else
        match advance n (pos : Int) node refRest offset replaced with
        | .converged rep => some (acc, rep, true)
        | .cursor node2 rest2 offset2 rep2 =>
          reparseLoopS P indentReject t2 st2 pos2 endPos node2 rest2 offset2 rep2
            (acc ++ [n])
termination_by t _ _ _ _ _ _ _ _ => t.length
decreasing_by
  all_goals
    simp only [List.length_drop, List.length_cons]
    have h1 := P.chunk_pos atStart (x :: xs) (by simp)
    omega

/-- `reparse_markup_elements`: run the loop from the start of the new
subrange with the old children as reference and the driver-supplied
initial `at_start`; when the loop did not stop by convergence, the whole
suffix of old children is replaced. Returns the fresh nodes and the
number of replaced old children; the driver splices the fresh nodes over
the first `replaced` old children. -/
def reparseMarkupElementsS (P : MarkupParser) (indentReject : PText → Bool)
    (newText : PText) (atStart : Bool) (endPos : Nat) (differential : Int)
    (reference : List PNode) : Option (List PNode × Nat) :=
  match reparseLoopS P indentReject newText atStart 0 endPos Option.none reference
      differential 0 [] with
  | Option.none => Option.none
  | some (res, replaced, stopped) =>
    some (res, if stopped then replaced else reference.length)

/-- Whether a markup node is handled by the default arm of the
`eval_markup` loop (everything except `Set`/`Show`/`Wrap` statements). -/
def MarkupNode.isPlain : MarkupNode → Bool
  | .expr (.set _ _ _) => false
  | .expr (.showR _ _ _) => false
  | .expr (.wrap _ _ _) => false
  | _ => true

/-! ## Concrete fixtures used by the witnesses -/

/-- A world with an empty library, no sources, and no path resolution. -/
def w0 : World :=
  { sourceAst := fun _ => Option.none, locate := fun _ _ => Option.none,
    resolve := fun _ => Option.none, std := [("text", .func ⟨"text"⟩)] }

/-- A fresh vm over `w0` for source 0. -/
def vm0 : Vm := Vm.initial w0 [0] 0

/-- A world whose every path resolves to source 0. -/
def w3 : World :=
  { w0 with
    sourceAst := fun _ => some []
    locate := fun _ s => some s
    resolve := fun _ => some 0 }

/-- A fresh vm over `w3` for source 0 (so source 0 is on the route). -/
def vm3 : Vm := Vm.initial w3 [0] 0

/-- The markup ast consisting of a lone `break` statement. -/
def astBrk : List MarkupNode := [.expr (.breakE 7)]

/-- A world whose source 0 is `astBrk`. -/
def w2 : World :=
  { w0 with sourceAst := fun i => if i = 0 then some astBrk else Option.none }

/-- The grapheme clusters of the string `"ab̈c"`: the combining mark
clusters with `b`. -/
def abStr : Str := ["a", "b̈", "c"]

/-- A vm with a pending `Break` flow. -/
def vmF : Vm := { vm0 with flow := some (.breakF 1) }

/-- Markup prefix used by the set-rule witness. -/
def preW : List MarkupNode := [.text ["h","i"]]

/-- Markup tail used by the set-rule witness. -/
def restW : List MarkupNode := [.text ["y","o"]]

/-- A concrete markup-node parser over a five-token byte code, faithful
to `markup_node`'s `at_start` discipline (`src/parse/mod.rs:226-294`)
and to `heading` (lines 316-330): byte 0 is a same-line space
(`Space{newlines:0}`: `at_start` preserved), byte 1 a newline space
(`Space{newlines:1}`: `at_start` set), byte 2 a one-byte block comment
(`at_start` preserved), byte 3 an `Eq` token — with `at_start` set and a
space (or nothing) following, a heading node spanning the rest of the
line; otherwise the one-byte text `"="` — and any other byte one-byte
text. Every non-space non-comment node clears `at_start`. -/
def headingChunk : Bool → PText → PNode × Bool
  | _, [] => (⟨9, 1⟩, false)
  | atStart, b :: rest =>
    if b = 0 then (⟨0, 1⟩, atStart)
    else if b = 1 then (⟨1, 1⟩, true)
    else if b = 2 then (⟨2, 1⟩, atStart)
    else if b = 3 then
      if atStart ∧ (rest.head? = some 0 ∨ rest.head? = some 1 ∨ rest.head? = Option.none)
      then (⟨3, 1 + (rest.takeWhile fun y => y != 1).length⟩, false)
      else (⟨4, 1⟩, false)
    else (⟨10 + b, 1⟩, false)

/-- `headingChunk` as a markup parser. -/
def headingChunker : MarkupParser where
  chunk := headingChunk
  chunk_pos := fun st t ht => by
    cases t with
    | nil => exact absurd rfl ht
    | cons b rest =>
      simp only [headingChunk]
      split_ifs <;> simp

/-- The bytes of the source `"x\n/**/= T"`: text `x`, newline, block
comment, `=`, space, text `T` (the comment contracted to one byte). -/
def oldBytes : PText := [30, 1, 2, 3, 0, 20]

/-- The bytes after the edit replacing `"x\n"` (bytes 0..2) with `"y "`:
the source `"y /**/= T"` — text `y`, same-line space, block comment,
`=`, space, text `T`. The differential is 0 and the edit end in new
coordinates is 2. -/
def newBytes : PText := [31, 0, 2, 3, 0, 20]

/-! ## Helper lemmas -/

/-- Step lemma: the `ModuleImport` arm of expression evaluation. -/
theorem evalExpr_import_step (f : Nat) (vm : Vm) (spI : Span) (pathE : Expr)
    (imps : Imports) :
    evalExpr (f + 1) vm (.importE spI pathE imps) =
      match evalExpr f vm pathE with
      | .error er => .error er
      | .ok (pv, vm) =>
        match pv with
        | .str path =>
          match importMod f vm path pathE.span with
          | .error er => .error er
          | .ok (m, vm) =>
            match imps with
            | .wildcard =>
              .ok (.none, m.scope.foldr (fun p vm => vm.define p.1 p.2) vm)
            | .items l => importItems m.scope vm l
        | v => .error (.err pathE.span ("expected string, found " ++ v.typeName)) := rfl

/-- Step lemma: the `ModuleInclude` arm of expression evaluation. -/
theorem evalExpr_include_step (f : Nat) (vm : Vm) (spI : Span) (pathE : Expr) :
    evalExpr (f + 1) vm (.includeE spI pathE) =
      match evalExpr f vm pathE with
      | .error er => .error er
      | .ok (pv, vm) =>
        match pv with
        | .str path =>
          match importMod f vm path pathE.span with
          | .error er => .error er
          | .ok (m, vm) => .ok (.content m.content, vm)
        | v => .error (.err pathE.span ("expected string, found " ++ v.typeName)) := rfl

/-- Step lemma: the default (non-`Set`/`Show`/`Wrap`) arm of the
`eval_markup` loop. -/
theorem evalMarkupLoop_cons_plain (g : Nat) (vm : Vm) (n : MarkupNode)
    (l : List MarkupNode) (h : n.isPlain = true) :
    evalMarkupLoop (g + 1) vm (n :: l) =
      match evalMarkupNode g vm n with
      | .error er => .error er
      | .ok (c, vm) =>
        if vm.flow.isSome then .ok ([c], vm)
        else
          match evalMarkupLoop g vm l with
          | .error er => .error er
          | .ok (cs, vm) => .ok (c :: cs, vm) := by
  cases n with
  | space => rfl
  | text => rfl
  | expr e => cases e <;> first | rfl | simp [MarkupNode.isPlain] at h

/-- Step lemma: the `Set` arm of the `eval_markup` loop. -/
theorem evalMarkupLoop_cons_set (g : Nat) (vm : Vm) (sp : Span) (tgt : Expr)
    (args : List ArgNode) (rest : List MarkupNode) :
    evalMarkupLoop (g + 1) vm (.expr (.set sp tgt args) :: rest) =
      match evalSetRule g vm tgt args with
      | .error er => .error er
      | .ok (styles, vm) =>
        if vm.flow.isSome then .ok ([], vm)
        else
          match evalMarkupList g vm rest with
          | .error er => .error er
          | .ok (tail, vm) => .ok ([tail.styledWithMap styles], vm) := rfl

/-- A run of the `eval_markup` loop over plain nodes that ends with no
pending flow needs more fuel than the number of nodes. -/
theorem evalMarkupLoop_fuel :
    ∀ (pre : List MarkupNode) (F : Nat) (vm : Vm) (cs : List Content) (vm1 : Vm),
      (∀ n ∈ pre, n.isPlain = true) →
      evalMarkupLoop F vm pre = .ok (cs, vm1) →
      vm1.flow = Option.none →
      pre.length < F := by
  intro pre
  induction pre with
  | nil =>
    intro F vm cs vm1 _ h _
    cases F with
    | zero => simp [evalMarkupLoop] at h
    | succ g => simp
  | cons n pr ih =>
    intro F vm cs vm1 hp h h1
    cases F with
    | zero => simp [evalMarkupLoop] at h
    | succ g =>
      have hn : n.isPlain = true := hp n (by simp)
      have hpr : ∀ j ∈ pr, j.isPlain = true := fun j hj => hp j (by simp [hj])
      rw [evalMarkupLoop_cons_plain g vm n pr hn] at h
      cases hnode : evalMarkupNode g vm n with
      | error er => rw [hnode] at h; simp at h
      | ok p =>
        obtain ⟨c, vmA⟩ := p
        rw [hnode] at h
        dsimp only at h
        by_cases hflow : vmA.flow.isSome
        · rw [if_pos hflow] at h
          simp only [Except.ok.injEq, Prod.mk.injEq] at h
          obtain ⟨-, h2⟩ := h
          rw [← h2] at h1
          rw [h1] at hflow
          simp at hflow
        · rw [if_neg hflow] at h
          cases hloop : evalMarkupLoop g vmA pr with
          | error er => rw [hloop] at h; simp at h
          | ok q =>
            obtain ⟨csr, vm1'⟩ := q
            rw [hloop] at h
            simp only [Except.ok.injEq, Prod.mk.injEq] at h
            obtain ⟨-, h2⟩ := h
            have := ih g vmA csr vm1' hpr hloop (h2 ▸ h1)
            simp only [List.length_cons]
            omega

/-- Running the `eval_markup` loop over a list that starts with plain,
successfully evaluated, flow-free nodes continues with the remaining
nodes at the correspondingly reduced fuel, prepending the accumulated
contents. -/
theorem evalMarkupLoop_append :
    ∀ (pre : List MarkupNode) (F : Nat) (vm : Vm) (more : List MarkupNode)
      (cs : List Content) (vm1 : Vm),
      (∀ n ∈ pre, n.isPlain = true) →
      evalMarkupLoop F vm pre = .ok (cs, vm1) →
      vm1.flow = Option.none →
      evalMarkupLoop F vm (pre ++ more) =
        match evalMarkupLoop (F - pre.length) vm1 more with
        | .error er => .error er
        | .ok (cs2, vm2) => .ok (cs ++ cs2, vm2) := by
  intro pre
  induction pre with
  | nil =>
    intro F vm more cs vm1 _ h _
    cases F with
    | zero => simp [evalMarkupLoop] at h
    | succ g =>
      simp only [evalMarkupLoop, Except.ok.injEq, Prod.mk.injEq] at h
      obtain ⟨h1, h2⟩ := h
      subst h1; subst h2
      simp only [List.nil_append, List.length_nil, Nat.sub_zero]
      cases hm : evalMarkupLoop (g + 1) vm more <;> simp
  | cons n pr ih =>
    intro F vm more cs vm1 hp h h1
    cases F with
    | zero => simp [evalMarkupLoop] at h
    | succ g =>
      have hn : n.isPlain = true := hp n (by simp)
      have hpr : ∀ j ∈ pr, j.isPlain = true := fun j hj => hp j (by simp [hj])
      rw [evalMarkupLoop_cons_plain g vm n pr hn] at h
      rw [List.cons_append, evalMarkupLoop_cons_plain g vm n (pr ++ more) hn]
      cases hnode : evalMarkupNode g vm n with
      | error er => rw [hnode] at h; simp at h
      | ok p =>
        obtain ⟨c, vmA⟩ := p
        rw [hnode] at h
        dsimp only at h ⊢
        by_cases hflow : vmA.flow.isSome
        · rw [if_pos hflow] at h
          simp only [Except.ok.injEq, Prod.mk.injEq] at h
          obtain ⟨-, h2⟩ := h
          rw [← h2] at h1
          rw [h1] at hflow
          simp at hflow
        · rw [if_neg hflow] at h ⊢
          cases hloop : evalMarkupLoop g vmA pr with
          | error er => rw [hloop] at h; simp at h
          | ok q =>
            obtain ⟨csr, vm1'⟩ := q
            rw [hloop] at h
            simp only [Except.ok.injEq, Prod.mk.injEq] at h
            obtain ⟨hcs, h2⟩ := h
            subst h2
            rw [ih g vmA more csr vm1' hpr hloop h1]
            simp only [List.length_cons, Nat.succ_sub_succ]
            cases evalMarkupLoop (g - pr.length) vm1' more with
            | error er => simp
            | ok r => obtain ⟨cs2, vm2⟩ := r; simp [← hcs]

/-- With a non-error item, a `collection` fold preserves an already
identified kind and an already falsified `can_group`. -/
theorem collectionStep_keeps (K : CollectionKind) :
    ∀ (its : List CollItem) (st : CollState), st.kind = some K → st.canGroup = false →
      (∀ j ∈ its, j.outcome ≠ .errorI) →
      (its.foldl collectionStep st).kind = some K
        ∧ (its.foldl collectionStep st).canGroup = false := by
  intro its
  induction its with
  | nil => intro st hk hc _; exact ⟨hk, hc⟩
  | cons j js ih =>
    intro st hk hc hj
    have hjn : j.outcome ≠ .errorI := hj j (by simp)
    have hjs : ∀ i ∈ js, i.outcome ≠ .errorI := fun i hi => hj i (by simp [hi])
    have hstep : (collectionStep st j).kind = some K
        ∧ (collectionStep st j).canGroup = false := by
      obtain ⟨o, cm⟩ := j
      cases o with
      | spread => cases cm <;> simp [collectionStep, hk, hc]
      | named => cases cm <;> simp [collectionStep, hk, hc]
      | pos => cases cm <;> simp [collectionStep, hk, hc]
      | errorI => exact absurd rfl hjn
    simp only [List.foldl_cons]
    exact ih (collectionStep st j) hstep.1 hstep.2 hjs

/-! ## Claim theorems -/

/-- C8: binary `and` and `or` short-circuit — if the left operand of
`and` evaluates to the boolean `false` (resp. of `or` to `true`), that
left value is the result and the right operand is never evaluated: the
conclusion does not depend on `r`. -/
theorem and_or_short_circuit (f : Nat) (vm vm1 : Vm) (sp : Span) (l r : Expr) :
    (evalExpr f vm l = .ok (.bool false, vm1) →
      evalExpr (f + 2) vm (.binary sp .and l r) = .ok (.bool false, vm1))
    ∧ (evalExpr f vm l = .ok (.bool true, vm1) →
      evalExpr (f + 2) vm (.binary sp .or l r) = .ok (.bool true, vm1)) := by
  constructor <;> intro h <;> simp [evalExpr, applyBin, h, shortCircuits]

/-- Witness for C8: concrete short-circuits whose right operand is an
unbound identifier that would error if evaluated. -/
theorem and_or_short_circuit_witness :
    evalExpr 5 vm0 (.binary 1 .and (.lit 2 (.bool false)) (.ident 3 "nope"))
        = .ok (.bool false, vm0)
    ∧ evalExpr 5 vm0 (.binary 1 .or (.lit 2 (.bool true)) (.ident 3 "nope"))
        = .ok (.bool true, vm0) :=
  ⟨(and_or_short_circuit 3 vm0 vm0 1 _ _).1 rfl,
   (and_or_short_circuit 3 vm0 vm0 1 _ _).2 rfl⟩

/-- C9: a `break`/`continue`/`return` statement always evaluates to the
value `None`; it sets the vm's pending flow only when none is pending,
and never overwrites an already pending flow, so the first raised signal
propagates. -/
theorem flow_statements_first_wins (f : Nat) (vm : Vm) (sp : Span) :
    (vm.flow = Option.none →
      evalExpr (f + 1) vm (.breakE sp) = .ok (.none, { vm with flow := some (.breakF sp) })
      ∧ evalExpr (f + 1) vm (.continueE sp)
          = .ok (.none, { vm with flow := some (.continueF sp) })
      ∧ evalExpr (f + 1) vm (.returnE sp Option.none)
          = .ok (.none, { vm with flow := some (.returnF sp Option.none) }))
    ∧ (∀ fl, vm.flow = some fl →
      evalExpr (f + 1) vm (.breakE sp) = .ok (.none, vm)
      ∧ evalExpr (f + 1) vm (.continueE sp) = .ok (.none, vm)
      ∧ evalExpr (f + 1) vm (.returnE sp Option.none) = .ok (.none, vm))
    ∧ (∀ e bv vm1, evalExpr f vm e = .ok (bv, vm1) →
      (vm1.flow = Option.none →
        evalExpr (f + 1) vm (.returnE sp (some e))
          = .ok (.none, { vm1 with flow := some (.returnF sp (some bv)) }))
      ∧ (∀ fl, vm1.flow = some fl →
        evalExpr (f + 1) vm (.returnE sp (some e)) = .ok (.none, vm1))) := by
  refine ⟨?_, ?_, ?_⟩
  · intro h
    refine ⟨?_, ?_, ?_⟩ <;> simp [evalExpr, setReturnFlow, h]
  · intro fl h
    refine ⟨?_, ?_, ?_⟩ <;> simp [evalExpr, setReturnFlow, h]
  · intro e bv vm1 h
    constructor
    · intro h1
      simp [evalExpr, setReturnFlow, h, h1]
    · intro fl h1
      simp [evalExpr, setReturnFlow, h, h1]

/-- Witness for C9: a `break` raises the signal; with a pending `Break`,
a later `break` and a later `return` (with body) leave the vm unchanged. -/
theorem flow_statements_first_wins_witness :
    evalExpr 4 vm0 (.breakE 3) = .ok (.none, { vm0 with flow := some (.breakF 3) })
    ∧ evalExpr 4 vmF (.breakE 3) = .ok (.none, vmF)
    ∧ evalExpr 4 vmF (.returnE 3 (some (.lit 2 (.int 1)))) = .ok (.none, vmF) :=
  ⟨((flow_statements_first_wins 3 vm0 3).1 rfl).1,
   ((flow_statements_first_wins 3 vmF 3).2.1 (.breakF 1) rfl).1,
   ((flow_statements_first_wins 3 vmF 3).2.2 (.lit 2 (.int 1)) (.int 1) vmF rfl).2
      (.breakF 1) rfl⟩

/-- C3: a flow signal pending at entry of a markup or code block is
still pending (the same signal) when the block's evaluation returns —
inner blocks never swallow an outer pending flow. -/
theorem blocks_preserve_pending_flow (fl : Flow) :
    (∀ f vm ns c vm1, vm.flow = some fl →
      evalMarkupList f vm ns = .ok (c, vm1) → vm1.flow = some fl)
    ∧ (∀ f vm es v vm1, vm.flow = some fl →
      evalCodeList f vm es = .ok (v, vm1) → vm1.flow = some fl)
    ∧ (∀ f vm sp es v vm1, vm.flow = some fl →
      evalExpr (f + 1) vm (.code sp es) = .ok (v, vm1) → vm1.flow = some fl)
    ∧ (∀ f vm sp ns v vm1, vm.flow = some fl →
      evalExpr (f + 1) vm (.content sp ns) = .ok (v, vm1) → vm1.flow = some fl) := by
  have hm : ∀ f vm ns c vm1, vm.flow = some fl →
      evalMarkupList f vm ns = .ok (c, vm1) → vm1.flow = some fl := by
    intro f vm ns c vm1 hf h
    cases f with
    | zero => simp [evalMarkupList] at h
    | succ g =>
      simp only [evalMarkupList] at h
      cases hl : evalMarkupLoop g { vm with flow := Option.none } ns with
      | error er => rw [hl] at h; simp at h
      | ok p =>
        obtain ⟨cs, vmA⟩ := p
        rw [hl, hf] at h
        simp only [Option.isSome_some, if_true, Except.ok.injEq, Prod.mk.injEq] at h
        obtain ⟨-, h2⟩ := h
        rw [← h2]
  have hc : ∀ f vm es v vm1, vm.flow = some fl →
      evalCodeList f vm es = .ok (v, vm1) → vm1.flow = some fl := by
    intro f vm es v vm1 hf h
    cases f with
    | zero => simp [evalCodeList] at h
    | succ g =>
      simp only [evalCodeList] at h
      cases hl : evalCodeLoop g { vm with flow := Option.none } .none es with
      | error er => rw [hl] at h; simp at h
      | ok p =>
        obtain ⟨out, vmA⟩ := p
        rw [hl, hf] at h
        simp only [Option.isSome_some, if_true, Except.ok.injEq, Prod.mk.injEq] at h
        obtain ⟨-, h2⟩ := h
        rw [← h2]
  refine ⟨hm, hc, ?_, ?_⟩
  · intro f vm sp es v vm1 hf h
    simp only [evalExpr] at h
    cases hl : evalCodeList f { vm with scopes := vm.scopes.enter } es with
    | error er => rw [hl] at h; simp at h
    | ok p =>
      obtain ⟨out, vmA⟩ := p
      rw [hl] at h
      simp only [Except.ok.injEq, Prod.mk.injEq] at h
      obtain ⟨-, h2⟩ := h
      have := hc f { vm with scopes := vm.scopes.enter } es out vmA hf hl
      rw [← h2]
      exact this
  · intro f vm sp ns v vm1 hf h
    simp only [evalExpr] at h
    cases hl : evalMarkupList f { vm with scopes := vm.scopes.enter } ns with
    | error er => rw [hl] at h; simp at h
    | ok p =>
      obtain ⟨out, vmA⟩ := p
      rw [hl] at h
      simp only [Except.ok.injEq, Prod.mk.injEq] at h
      obtain ⟨-, h2⟩ := h
      have := hm f { vm with scopes := vm.scopes.enter } ns out vmA hf hl
      rw [← h2]
      exact this

/-- Witness for C3: pending `Break` and `Return` signals survive an
(empty) markup block and code block. -/
theorem blocks_preserve_pending_flow_witness :
    (({ vm0 with flow := some (.breakF 1) } : Vm).flow = some (Flow.breakF 1))
    ∧ (({ vm0 with flow := some (.returnF 2 Option.none) } : Vm).flow
        = some (Flow.returnF 2 Option.none)) :=
  ⟨(blocks_preserve_pending_flow (.breakF 1)).1 3
      { vm0 with flow := some (.breakF 1) } [] (Content.sequence [])
      { vm0 with flow := some (.breakF 1) } rfl rfl,
   (blocks_preserve_pending_flow (.returnF 2 Option.none)).2.1 3
      { vm0 with flow := some (.returnF 2 Option.none) } [] .none
      { vm0 with flow := some (.returnF 2 Option.none) } rfl rfl⟩

/-- C4: evaluating an import or include whose resolved source id is
already contained in the current route fails with the "cyclic import"
error at the span of the path expression, regardless of the target
source's content or the remaining fuel — i.e. before re-entering
evaluation of that source. -/
theorem cyclic_import_detected (f : Nat) (vm vm1 : Vm) (spI : Span) (pathE : Expr)
    (imps : Imports) (pathV full : Str) (id : SourceId)
    (hpath : evalExpr f vm pathE = .ok (.str pathV, vm1))
    (hloc : vm1.world.locate vm1.location pathV = some full)
    (hres : vm1.world.resolve full = some id)
    (hcyc : routeContains vm1.route id = true) :
    evalExpr (f + 1) vm (.importE spI pathE imps) = .error (.err pathE.span "cyclic import")
    ∧ evalExpr (f + 1) vm (.includeE spI pathE) = .error (.err pathE.span "cyclic import") := by
  cases f with
  | zero => simp [evalExpr] at hpath
  | succ g =>
    constructor
    · rw [evalExpr_import_step, hpath]
      simp only [importMod, hloc, hres, hcyc, if_true]
    · rw [evalExpr_include_step, hpath]
      simp only [importMod, hloc, hres, hcyc, if_true]

/-- Witness for C4: importing or including a path that resolves to the
source already on the route errors with "cyclic import" at the path
span 9. -/
theorem cyclic_import_detected_witness :
    evalExpr 2 vm3 (.importE 1 (.lit 9 (.str ["m"])) .wildcard)
        = .error (.err 9 "cyclic import")
    ∧ evalExpr 2 vm3 (.includeE 1 (.lit 9 (.str ["m"])))
        = .error (.err 9 "cyclic import") :=
  cyclic_import_detected 1 vm3 vm3 1 (.lit 9 (.str ["m"])) .wildcard ["m"] ["m"] 0
    rfl rfl rfl rfl

/-- C5: if, after evaluating the root markup of a source, a flow signal
is still pending on the vm, `eval` returns the "<flow> is not allowed
here" error carrying the flow's span, and no module is produced. -/
theorem pending_flow_at_root_errors (f : Nat) (w : World) (route : List SourceId)
    (id : SourceId) (ast : List MarkupNode) (c : Content) (vm1 : Vm) (fl : Flow)
    (hroute : routeContains route id = false)
    (hsrc : w.sourceAst id = some ast)
    (heval : evalMarkupList f (Vm.initial w (id :: route) id) ast = .ok (c, vm1))
    (hflow : vm1.flow = some fl) :
    evalSource (f + 1) w route id = .error (.err fl.span fl.forbidden) := by
  simp only [evalSource, hroute, hsrc, heval, hflow]
  simp

/-- Witness for C5: a source consisting of a lone `break` statement makes
`eval` fail with "break is not allowed here" at the break's span. -/
theorem pending_flow_at_root_errors_witness :
    evalSource 6 w2 [] 0 = .error (.err 7 "break is not allowed here") :=
  pending_flow_at_root_errors 5 w2 [] 0 astBrk (Content.sequence [.empty])
    { Vm.initial w2 [0] 0 with flow := some (.breakF 7) } (.breakF 7)
    rfl rfl (by rfl) rfl

/-- C6: the for loop dispatches on the iterand's kind — a string with a
single-variable pattern yields one iteration per grapheme cluster in
order (the model string "ab̈c" gives exactly three iterations and the
end-to-end loop joins them back in order); an array yields its elements;
a dict yields values or (key, value) pairs according to the pattern; an
args pack yields positional values or name/value pairs according to the
pattern; a `key, value` pattern over a string is the "mismatched
pattern" error at the pattern's span; every other iterand kind is a
"cannot loop over" error at the iterand's span. -/
theorem for_loop_dispatch :
    (∀ psp isp v s, forIterations psp isp Option.none v (.str s)
        = .ok (s.map fun g => [(v, Value.str [g])]))
    ∧ (∀ psp isp v xs, forIterations psp isp Option.none v (.array xs)
        = .ok (xs.map fun x => [(v, x)]))
    ∧ (∀ psp isp v d, forIterations psp isp Option.none v (.dict d)
        = .ok (d.map fun p => [(v, p.2)]))
    ∧ (∀ psp isp k v d, forIterations psp isp (some k) v (.dict d)
        = .ok (d.map fun p => [(k, Value.str p.1), (v, p.2)]))
    ∧ (∀ psp isp v items, forIterations psp isp Option.none v (.args items)
        = .ok ((items.filter fun a => a.name.isNone).map fun a => [(v, a.value)]))
    ∧ (∀ psp isp k v items, forIterations psp isp (some k) v (.args items)
        = .ok (items.map fun a =>
            [(k, match a.name with | Option.none => Value.none | some n => Value.str n),
             (v, a.value)]))
    ∧ (∀ psp isp k v s, forIterations psp isp (some k) v (.str s)
        = .error (.err psp "mismatched pattern"))
    ∧ (∀ psp isp key v, forIterations psp isp key v Value.none
        = .error (.err isp "cannot loop over none"))
    ∧ (∀ psp isp key v, forIterations psp isp key v .auto
        = .error (.err isp "cannot loop over auto"))
    ∧ (∀ psp isp key v b, forIterations psp isp key v (.bool b)
        = .error (.err isp "cannot loop over boolean"))
    ∧ (∀ psp isp key v i, forIterations psp isp key v (.int i)
        = .error (.err isp "cannot loop over integer"))
    ∧ (∀ psp isp key v c, forIterations psp isp key v (.content c)
        = .error (.err isp "cannot loop over content"))
    ∧ (∀ psp isp key v fn, forIterations psp isp key v (.func fn)
        = .error (.err isp "cannot loop over function"))
    ∧ forIterations 1 2 Option.none "c" (.str abStr)
        = .ok [[("c", .str ["a"])], [("c", .str ["b̈"])], [("c", .str ["c"])]]
    ∧ evalExpr 10 vm0 (.forLoop 0 1 Option.none "c" (.lit 2 (.str abStr)) (.ident 3 "c"))
        = .ok (.str ["a", "b̈", "c"], vm0) := by
  refine ⟨?_, ?_, ?_, ?_, ?_, ?_, ?_, ?_, ?_, ?_, ?_, ?_, ?_, ?_, ?_⟩ <;>
    (intros; rfl)

/-- C10: a for loop with a `key, value` pattern over an array binds the
key to the zero-based index and the value to the element, in array
order; concretely, looping over a two-element array and collecting
`(i, x)` pairs yields indices 0 and 1 with the elements in order. -/
theorem for_array_key_value_zero_based :
    (∀ psp isp k v xs, forIterations psp isp (some k) v (.array xs)
        = .ok (xs.enum.map fun p => [(k, Value.int p.1), (v, p.2)]))
    ∧ evalExpr 12 vm0 (.forLoop 0 1 (some "i") "x"
        (.arrayE 2 [.pos (.lit 3 (.str ["p"])), .pos (.lit 4 (.str ["q"]))])
        (.arrayE 5 [.pos (.ident 6 "i"), .pos (.ident 7 "x")]))
      = .ok (.array [.int 0, .str ["p"], .int 1, .str ["q"]], vm0) := by
  constructor
  · intros; rfl
  · rfl

/-- C7 counterexample: a collection that starts with a positional item
followed by a comma does not become an `Array` when a later item fails
to parse — the error arm of `collection` reclassifies the construct as a
`Group`, so it stays a `Parenthesized` node (concretely, source text
like `(1, (a): 2)` where the second `item` call returns `Err`). -/
theorem collection_error_item_counterexample :
    parenthesized false false false [⟨.pos, true⟩, ⟨.errorI, false⟩] = .parenthesized
    ∧ parenthesized false false false [⟨.pos, true⟩, ⟨.errorI, false⟩] ≠ .array := by
  constructor
  · rfl
  · decide

/-- C7 (amended): parenthesized constructs are classified in one pass —
empty `()` is an empty `Array`; a leading `:` makes a `Dict`; a
collection starting with a positional item that has a comma becomes an
`Array`, and one starting with a named pair becomes a `Dict`, provided
no item fails to parse (an item parse error reclassifies the collection
as a `Group`, leaving a `Parenthesized` node); a single comma-less
expression stays `Parenthesized`; a following `=>` (outside atomic
position) makes a `Closure` parameter list. -/
theorem parenthesized_classification :
    (parenthesized false false false [] = .array ∧ (collection []).2 = 0)
    ∧ (∀ atomic arrowAfter its, parenthesized true atomic arrowAfter its = .dict)
    ∧ (∀ it its, it.outcome = .pos → it.comma = true →
        (∀ j ∈ its, j.outcome ≠ .errorI) →
        parenthesized false false false (it :: its) = .array)
    ∧ (∀ it its, it.outcome = .named →
        (∀ j ∈ its, j.outcome ≠ .errorI) →
        parenthesized false false false (it :: its) = .dict)
    ∧ (∀ it, it.outcome = .pos → it.comma = false →
        parenthesized false false false [it] = .parenthesized)
    ∧ (∀ its, parenthesized false false true its = .closure) := by
  refine ⟨⟨rfl, rfl⟩, ?_, ?_, ?_, ?_, ?_⟩
  · intro atomic arrowAfter its; simp [parenthesized]
  · intro it its ho hc hj
    obtain ⟨o, cm⟩ := it
    cases ho; cases hc
    have h1 : collectionStep ⟨Option.none, 0, true⟩ ⟨.pos, true⟩
        = ⟨some .positional, 1, false⟩ := rfl
    have := collectionStep_keeps .positional its ⟨some .positional, 1, false⟩ rfl rfl hj
    simp only [parenthesized, collection, List.foldl_cons, h1]
    simp [this.1, this.2]
  · intro it its ho hj
    obtain ⟨o, cm⟩ := it
    cases ho
    have h1 : (collectionStep ⟨Option.none, 0, true⟩ ⟨.named, cm⟩).kind = some .named
        ∧ (collectionStep ⟨Option.none, 0, true⟩ ⟨.named, cm⟩).canGroup = false := by
      cases cm <;> simp [collectionStep]
    have := collectionStep_keeps .named its _ h1.1 h1.2 hj
    simp only [parenthesized, collection, List.foldl_cons]
    simp [this.1, this.2]
  · intro it ho hc
    obtain ⟨o, cm⟩ := it
    cases ho; cases hc
    rfl
  · intro its; simp [parenthesized]

/-- Witness for C7: concrete classifications — positional-with-comma
collections are arrays, named collections are dicts, a single comma-less
item stays parenthesized. -/
theorem parenthesized_classification_witness :
    parenthesized false false false [⟨.pos, true⟩, ⟨.pos, false⟩] = .array
    ∧ parenthesized false false false [⟨.named, false⟩, ⟨.named, true⟩] = .dict
    ∧ parenthesized false false false [⟨.pos, false⟩] = .parenthesized :=
  ⟨parenthesized_classification.2.2.1 ⟨.pos, true⟩ [⟨.pos, false⟩] rfl rfl
      (by intro j hj; simp at hj; simp [hj]),
   parenthesized_classification.2.2.2.1 ⟨.named, false⟩ [⟨.named, true⟩] rfl
      (by intro j hj; simp at hj; simp [hj]),
   parenthesized_classification.2.2.2.2.1 ⟨.pos, false⟩ rfl rfl⟩

/-- C2: in markup evaluation, a `Set` statement first evaluates its
style map (from the state reached after the preceding siblings), then
evaluates all remaining siblings of the block, and wraps exactly their
combined content with the style map — the contents emitted before the
`Set` appear in the result sequence unwrapped. -/
theorem set_rule_forward_scope (F : Nat) (vm vm1 vm2 vm3 : Vm)
    (pre rest : List MarkupNode) (sp : Span) (tgt : Expr) (args : List ArgNode)
    (cs : List Content) (styles : StyleMap) (tail : Content)
    (hflow : vm.flow = Option.none)
    (hplain : ∀ n ∈ pre, n.isPlain = true)
    (hpre : evalMarkupLoop F vm pre = .ok (cs, vm1))
    (h1 : vm1.flow = Option.none)
    (hset : evalSetRule (F - pre.length - 1) vm1 tgt args = .ok (styles, vm2))
    (h2 : vm2.flow = Option.none)
    (htail : evalMarkupList (F - pre.length - 1) vm2 rest = .ok (tail, vm3)) :
    evalMarkupList (F + 1) vm (pre ++ .expr (.set sp tgt args) :: rest)
      = .ok (Content.sequence (cs ++ [tail.styledWithMap styles]), vm3) := by
  have hvm : { vm with flow := Option.none } = vm := by
    cases vm
    simp only at hflow
    rw [hflow]
  have hlt : pre.length < F := evalMarkupLoop_fuel pre F vm cs vm1 hplain hpre h1
  have hG : F - pre.length = (F - pre.length - 1) + 1 := by omega
  simp only [evalMarkupList, hvm, hflow, Option.isSome_none, Bool.false_eq_true, if_false]
  rw [evalMarkupLoop_append pre F vm _ cs vm1 hplain hpre h1]
  rw [hG, evalMarkupLoop_cons_set, hset]
  dsimp only
  rw [h2]
  simp only [Option.isSome_none, Bool.false_eq_true, if_false]
  rw [htail]

/-- Witness for C2: `hi #set text(...) yo` — the text before the set
rule stays unstyled, the text after it is wrapped with the style map. -/
theorem set_rule_forward_scope_witness :
    evalMarkupList 10 vm0 (preW ++ .expr (.set 5 (.ident 6 "text") []) :: restW)
      = .ok (Content.sequence ([.text ["h","i"]]
          ++ [(Content.sequence [.text ["y","o"]]).styledWithMap [.setE "text" []]]), vm0) :=
  set_rule_forward_scope 9 vm0 vm0 vm0 vm0 preW restW 5 (.ident 6 "text") []
    [.text ["h","i"]] [.setE "text" []] (Content.sequence [.text ["y","o"]])
    rfl (by intro n hn; simp [preW] at hn; simp [hn, MarkupNode.isPlain])
    (by rfl) rfl (by rfl) rfl (by rfl)

/-- C1: the failing input, evaluated. The source `"x\n/**/= T"` parses
to text, newline, comment, heading (the newline sets `at_start`, the
comment preserves it, so the `=` starts a heading). The edit replaces
bytes 0..2 (`"x\n"`) with `"y "`, giving `"y /**/= T"`; the root markup
reparse runs with `at_start = true`, `min_indent = 0` (so the indent
guard never fires), differential 0 and edit end 2. The reparse is
accepted: it emits text and a same-line space, then converges at the
block comment — an equal node at the matching offset — and replaces the
first two old children, so the spliced tree keeps the old heading. But
the full parse of the edited text reaches the `=` with
`at_start = false` (the same-line space and the comment both preserve
the flag, which the text `"y"` cleared) and yields the text `"="`, a
space and the text `"T"` instead of a heading. The spliced tree is not
byte-for-byte identical to the full parse, against the claim and the
spec's correctness floor. -/
theorem reparse_accepted_tree_differs_from_full_parse :
    parseSeqS headingChunker true oldBytes
        = [⟨40,1⟩, ⟨1,1⟩, ⟨2,1⟩, ⟨3,3⟩]
    ∧ reparseMarkupElementsS headingChunker (fun _ => false) newBytes true 2 0
          (parseSeqS headingChunker true oldBytes)
        = some ([⟨41,1⟩, ⟨0,1⟩], 2)
    ∧ ([⟨41,1⟩, ⟨0,1⟩] : List PNode) ++ (parseSeqS headingChunker true oldBytes).drop 2
        = [⟨41,1⟩, ⟨0,1⟩, ⟨2,1⟩, ⟨3,3⟩]
    ∧ parseSeqS headingChunker true newBytes
        = [⟨41,1⟩, ⟨0,1⟩, ⟨2,1⟩, ⟨4,1⟩, ⟨0,1⟩, ⟨30,1⟩]
    ∧ ([⟨41,1⟩, ⟨0,1⟩, ⟨2,1⟩, ⟨3,3⟩] : List PNode)
        ≠ [⟨41,1⟩, ⟨0,1⟩, ⟨2,1⟩, ⟨4,1⟩, ⟨0,1⟩, ⟨30,1⟩] := by
  refine ⟨?_, ?_, ?_, ?_, ?_⟩
  · simp [parseSeqS, headingChunker, headingChunk, oldBytes]
  · simp [reparseMarkupElementsS, reparseLoopS, advance, parseSeqS,
      headingChunker, headingChunk, oldBytes, newBytes]
  · simp [parseSeqS, headingChunker, headingChunk, oldBytes]
  · simp [parseSeqS, headingChunker, headingChunk, newBytes]
  · decide

end TypstModel
